import Mathlib

/- Verification development for the JJTV video-catalog and extraction gateway.

   The definitions below are shallow embeddings of the Python source in
   src/server.py (catalog schema with positional ordering) and
   src/backend/server.py (uuid-keyed schema with manual-id enrichment).
   The external resolver (yt-dlp) is modelled as an opaque function
   parameter; dictionaries returned by it are modelled as structures whose
   fields are Option-valued, a missing key being `none`. -/

/-- Python truthiness of an optional string value: `None` and the empty
string are falsy, every other string is truthy. -/
def truthyOpt : Option String → Bool
  | none => false
  | some s => !s.isEmpty

/-- The deterministic thumbnail URL template used throughout both servers
whenever an entry carries no thumbnail of its own. -/
def thumb_template (video_id : String) : String :=
  "https://i.ytimg.com/vi/" ++ video_id ++ "/hqdefault.jpg"

/-- Python `str.strip()`: remove leading and trailing whitespace. Defined
over the character list so that concrete instances evaluate. -/
def py_strip (s : String) : String :=
  String.mk (((s.data.dropWhile Char.isWhitespace).reverse.dropWhile Char.isWhitespace).reverse)

/- ===================== Format selector (extract_video) ================ -/

/-- One entry of the `formats` list supplied by the resolver inside
`extract_video`. The fields mirror exactly the dictionary keys the code
reads: `f.get("acodec")`, `f.get("vcodec")`, `f.get("url")`. -/
structure StreamFormat where
  acodec : Option String
  vcodec : Option String
  url : Option String
deriving Repr, DecidableEq

/-- The candidate test used by `extract_video` when scanning `formats`:
`f.get("acodec") != "none" and f.get("vcodec") != "none"`. As in Python,
a missing key (value `None`) passes the test, because `None != "none"`. -/
def has_audio_video (f : StreamFormat) : Bool :=
  (f.acodec != some "none") && (f.vcodec != some "none")

/-- Outcome of the format-selection step of `extract_video`: either a
playable URL, or the `NoPlayableStream` failure that the route reports as
"Could not extract video URL" with HTTP 500. -/
inductive ExtractOutcome where
  | ok (url : String)
  | noPlayableStream
deriving Repr, DecidableEq

/-- The format-selection logic of `extract_video` (src/server.py lines
176-193, identical in src/backend/server.py lines 327-344), producing the
value of the Python variable `video_url` just before the final truthiness
check. Start from the canonical `info.get("url")`; if that is falsy and a
`formats` list is present, take the URL of the first format having both
audio and video, else (`elif formats:`) the URL of the last format when
the list is non-empty. -/
def select_format_url (canonical : Option String) (formats : Option (List StreamFormat)) :
    Option String :=
  if truthyOpt canonical then canonical
  else
    match formats with
    | none => canonical
    | some fs =>
      match fs.find? has_audio_video with
      | some f => f.url
      | none =>
        match fs.getLast? with
        | some f => f.url
        | none => canonical

/-- The final step of `extract_video`: `if not video_url:` report the
failure, otherwise answer with the selected URL. -/
def extract_video_url (canonical : Option String) (formats : Option (List StreamFormat)) :
    ExtractOutcome :=
  match select_format_url canonical formats with
  | some s => if s.isEmpty then .noPlayableStream else .ok s
  | none => .noPlayableStream

/- ===================== Resolution cache (video_cache) ================= -/

/-- `cache_timeout = timedelta(hours=1)`, measured here in seconds. -/
def cache_timeout : Nat := 3600

/-- The module-level `video_cache` dictionary: each entry is a key mapped
to the pair `(payload, insertion_time)` stored by
`video_cache[cache_key] = (response_data, datetime.now())`. Time is
modelled as a natural number of seconds. The payload type is opaque. -/
abbrev VCache (α : Type) : Type := List (String × α × Nat)

/-- Python dictionary assignment `video_cache[k] = (v, now)`: replace the
entry of an existing key in place, otherwise append a new entry. Keys
occur at most once because assignment is the only writer. -/
def cache_put {α : Type} (c : VCache α) (k : String) (v : α) (now : Nat) : VCache α :=
  match c with
  | [] => [(k, v, now)]
  | e :: rest => if e.1 == k then (k, v, now) :: rest else e :: cache_put rest k v now

/-- The cache-read logic at the top of `extract_video` and
`get_blippi_videos`: a key is served from the cache only when it is
present and `datetime.now() - cache_time < cache_timeout`; an expired
entry is left in place and the read behaves as a miss. -/
def cache_get {α : Type} (c : VCache α) (k : String) (now : Nat) : Option α :=
  match c.find? (fun e => e.1 == k) with
  | some e => if now - e.2.2 < cache_timeout then some e.2.1 else none
  | none => none

/-- The cache discipline of `extract_video`: answer from a fresh cache
entry when possible, otherwise invoke the resolver and write the result
into the cache (replacing any stale entry for the key). -/
def extract_with_cache {α : Type} (c : VCache α) (k : String) (now : Nat)
    (resolve : Unit → α) : α × VCache α :=
  match cache_get c k now with
  | some v => (v, c)
  | none =>
    let v := resolve ()
    (v, cache_put c k v now)

/- ============ Catalog store of src/server.py (channels.db) ============ -/

namespace Catalog

/-- A row of the `video_groups` table (src/server.py `init_db`). -/
structure GroupRow where
  id : Nat
  group_name : String
  description : String
  thumbnail : String
deriving Repr, DecidableEq

/-- A row of the `group_videos` table (src/server.py `init_db`): the
schema declares `UNIQUE(group_id, video_id)` and
`FOREIGN KEY (group_id) REFERENCES video_groups(id) ON DELETE CASCADE`. -/
structure GroupVideoRow where
  id : Nat
  group_id : Nat
  video_id : String
  video_title : String
  video_thumbnail : String
  position : Nat
deriving Repr, DecidableEq

/-- The relational state of channels.db restricted to the two tables the
claims are about, together with the AUTOINCREMENT counters of their
integer primary keys. -/
structure CatalogDB where
  video_groups : List GroupRow
  group_videos : List GroupVideoRow
  next_group_id : Nat
  next_row_id : Nat
deriving Repr, DecidableEq

/-- `SELECT * FROM video_groups WHERE id = ?`. -/
def getGroup (db : CatalogDB) (gid : Nat) : Option GroupRow :=
  db.video_groups.find? (fun g => g.id == gid)

/-- `SELECT * FROM group_videos WHERE group_id = ?`. -/
def rowsOf (db : CatalogDB) (gid : Nat) : List GroupVideoRow :=
  db.group_videos.filter (fun r => r.group_id == gid)

/-- `SELECT MAX(position) FROM ...` over a list of rows: `none` models the
SQL NULL returned on an empty table. -/
def maxPos : List GroupVideoRow → Option Nat
  | [] => none
  | r :: rs =>
    match maxPos rs with
    | none => some r.position
    | some m => some (max r.position m)

/-- `SELECT ... ORDER BY position ASC LIMIT 1` over a list of rows:
the row with the smallest position (ties broken towards the earlier row;
reachable states never hold ties within one group). -/
def minPosRow : List GroupVideoRow → Option GroupVideoRow
  | [] => none
  | r :: rs =>
    match minPosRow rs with
    | none => some r
    | some m => if r.position ≤ m.position then some r else some m

/-- `UPDATE video_groups SET thumbnail = ? WHERE id = ?`. -/
def set_thumbnail (l : List GroupRow) (gid : Nat) (t : String) : List GroupRow :=
  l.map (fun g => if g.id = gid then { g with thumbnail := t } else g)

/-- `next_position = (max_pos + 1) if max_pos is not None else 1` from
`add_video_to_group`. -/
def nextPosition (db : CatalogDB) (gid : Nat) : Nat :=
  match maxPos (rowsOf db gid) with
  | some m => m + 1
  | none => 1

inductive CreateGroupResult where
  | ok (group_id : Nat)
  | validationError
deriving Repr, DecidableEq

/-- `create_group` (src/server.py lines 563-616): reject a falsy
`group_name` with HTTP 400, otherwise insert a group row whose thumbnail
starts empty. -/
def create_group (db : CatalogDB) (group_name description : String) :
    CatalogDB × CreateGroupResult :=
  if group_name.isEmpty then (db, .validationError)
  else
    ({ db with
        video_groups := db.video_groups ++
          [{ id := db.next_group_id, group_name := group_name,
             description := description, thumbnail := "" }],
        next_group_id := db.next_group_id + 1 },
     .ok db.next_group_id)

inductive AddVideoResult where
  | ok (row_id position : Nat)
  | validationError
  | notFound
  | conflict
deriving Repr, DecidableEq

def AddVideoResult.isOk : AddVideoResult → Bool
  | .ok _ _ => true
  | _ => false

/-- `add_video_to_group` (src/server.py lines 677-761): validate the
required fields, default the thumbnail to the templated URL when the key
is absent, reject an unknown group with 404, compute
`next_position = max_pos + 1 if max_pos is not None else 1`, and insert.
A violation of `UNIQUE(group_id, video_id)` raises `IntegrityError` and
the connection closes uncommitted, so the store is unchanged (409). On
success, when `next_position == 1` the thumbnail of the group is set to
the thumbnail of the inserted video. -/
def add_video_to_group (db : CatalogDB) (gid : Nat) (video_id video_title : String)
    (video_thumbnail? : Option String) : CatalogDB × AddVideoResult :=
  if video_id.isEmpty || video_title.isEmpty then (db, .validationError)
  else
    let video_thumbnail := video_thumbnail?.getD (thumb_template video_id)
    if ¬ db.video_groups.any (fun g => g.id == gid) then (db, .notFound)
    else
      let next_position := nextPosition db gid
      if db.group_videos.any (fun r => r.group_id == gid && r.video_id == video_id) then
        (db, .conflict)
      else
        let newRow : GroupVideoRow :=
          { id := db.next_row_id, group_id := gid, video_id := video_id,
            video_title := video_title, video_thumbnail := video_thumbnail,
            position := next_position }
        let groups2 :=
          if next_position = 1 then set_thumbnail db.video_groups gid video_thumbnail
          else db.video_groups
        ({ db with
            video_groups := groups2,
            group_videos := db.group_videos ++ [newRow],
            next_row_id := db.next_row_id + 1 },
         .ok db.next_row_id next_position)

inductive DeleteResult where
  | ok
  | notFound
deriving Repr, DecidableEq

/-- `delete_video_from_group` (src/server.py lines 809-853): delete by
`WHERE group_id = ? AND id = ?` (the route parameter named `video_id` is
matched against the `id` column, i.e. the row id). The thumbnail of the
group is then recomputed unconditionally from the first remaining row in
position order (empty string when none remain), and the transaction is
committed whether or not a row was deleted; only the HTTP status reflects
`rows_affected`. -/
def delete_video_from_group (db : CatalogDB) (gid rid : Nat) : CatalogDB × DeleteResult :=
  let remaining := db.group_videos.filter (fun r => ¬ (r.group_id = gid ∧ r.id = rid))
  let affected := db.group_videos.any (fun r => r.group_id == gid && r.id == rid)
  let new_thumbnail :=
    ((minPosRow (remaining.filter (fun r => r.group_id == gid))).map
      (fun r => r.video_thumbnail)).getD ""
  let db2 : CatalogDB :=
    { db with
        group_videos := remaining,
        video_groups := set_thumbnail db.video_groups gid new_thumbnail }
  (db2, if affected then .ok else .notFound)

/-- `delete_group` (src/server.py lines 763-793): `DELETE FROM
video_groups WHERE id = ?`, 404 when `rows_affected == 0`. Although the
schema declares `ON DELETE CASCADE` on `group_videos.group_id`, the
server never issues `PRAGMA foreign_keys = ON`, and sqlite3 connections
leave foreign-key enforcement at its default OFF, so at run time the
member rows are NOT deleted: the `group_videos` table is untouched. -/
def delete_group (db : CatalogDB) (gid : Nat) : CatalogDB × DeleteResult :=
  let affected := db.video_groups.any (fun g => g.id == gid)
  ({ db with video_groups := db.video_groups.filter (fun g => ¬ g.id = gid) },
   if affected then .ok else .notFound)

/-- The thumbnail value that `delete_video_from_group` recomputes for a
group: the thumbnail of its first row in position order, or the empty
string when the group has no rows. -/
def group_thumb_spec (db : CatalogDB) (gid : Nat) : String :=
  ((minPosRow (rowsOf db gid)).map (fun r => r.video_thumbnail)).getD ""

/-- State invariant: every group row carries exactly the thumbnail that a
recomputation would produce. It holds for the empty store and is
preserved by every catalog mutation, so it holds in every reachable
state. -/
def Consistent (db : CatalogDB) : Prop :=
  ∀ g ∈ db.video_groups, g.thumbnail = group_thumb_spec db g.id

/-- Positional invariants of the `group_videos` table: every position is
at least 1, `(group_id, video_id)` is unique, and positions are distinct
within each group. -/
def PosInv (db : CatalogDB) : Prop :=
  (∀ r ∈ db.group_videos, 1 ≤ r.position) ∧
  db.group_videos.Pairwise (fun a b => a.group_id ≠ b.group_id ∨ a.video_id ≠ b.video_id) ∧
  db.group_videos.Pairwise (fun a b => a.group_id = b.group_id → a.position ≠ b.position)

end Catalog

/- ========= Catalog store of src/backend/server.py (jjutv.db) ========== -/

namespace Backend

/-- The flattened metadata dictionary returned by a single-video lookup in
`fetch_video_info` (src/backend/server.py lines 256-280): the four keys
the code reads, each possibly absent. -/
structure FlatInfo where
  title : Option String
  thumbnail : Option String
  duration : Option Nat
  uploader : Option String
deriving Repr, DecidableEq

/-- The record built by `fetch_video_info` for one video id, used as a
draft row for insertion. -/
structure VideoInfo where
  video_id : String
  title : String
  thumbnail : String
  duration : Nat
  uploader : String
deriving Repr, DecidableEq

/-- `fetch_video_info` (src/backend/server.py lines 256-280): resolve one
id in flattened mode. On success the dictionary keys are read with the
defaults of the source (`Unknown Title`, templated thumbnail, 0,
`Unknown`); a failed lookup is caught and degrades to the placeholder
record built from exactly those defaults. The external lookup is the
`resolve` parameter. -/
def fetch_video_info (resolve : String → Except String FlatInfo) (video_id : String) :
    VideoInfo :=
  match resolve video_id with
  | .ok info =>
    { video_id := video_id,
      title := info.title.getD "Unknown Title",
      thumbnail := info.thumbnail.getD (thumb_template video_id),
      duration := info.duration.getD 0,
      uploader := info.uploader.getD "Unknown" }
  | .error _ =>
    { video_id := video_id,
      title := "Unknown Title",
      thumbnail := thumb_template video_id,
      duration := 0,
      uploader := "Unknown" }

/-- One iteration of the manual-id loop of `add_videos_to_group`
(src/backend/server.py lines 811-818): strip the raw id; when it is
non-empty and not in `existing_ids`, enrich it through
`fetch_video_info`, append the record, remember the id, and count it.
The accumulator is the pair `(new_videos, existing_ids)`; `added_count`
is the length of the first component, which the loop keeps in lockstep
with it. -/
def enrich_step (resolve : String → Except String FlatInfo)
    (acc : List VideoInfo × List String) (raw : String) :
    List VideoInfo × List String :=
  let video_id := py_strip raw
  if video_id ≠ "" ∧ video_id ∉ acc.2 then
    (acc.1 ++ [fetch_video_info resolve video_id], video_id :: acc.2)
  else acc

/-- The whole manual-id enrichment loop, started from the membership set
loaded once before the batch. -/
def enrich_ids (resolve : String → Except String FlatInfo)
    (existing : List String) (video_ids : List String) :
    List VideoInfo × List String :=
  video_ids.foldl (enrich_step resolve) ([], existing)

/-- A row of the `groups` table of jjutv.db (uuid-keyed). -/
structure BGroupRow where
  id : String
  name : String
  description : String
deriving Repr, DecidableEq

/-- A row of the `videos` table of jjutv.db; the schema declares
`UNIQUE(group_id, video_id)`. -/
structure BVideoRow where
  rowid : Nat
  group_id : String
  video_id : String
  title : String
  thumbnail : String
  duration : Nat
  uploader : String
deriving Repr, DecidableEq

/-- The relational state of jjutv.db restricted to the two tables the
claims are about, with the AUTOINCREMENT counter of `videos.id`. -/
structure BackendDB where
  groups : List BGroupRow
  videos : List BVideoRow
  next_rowid : Nat
deriving Repr, DecidableEq

/-- The insertion loop at the end of `add_videos_to_group`
(src/backend/server.py lines 820-836): one `INSERT INTO videos` per
enriched record. -/
def insert_videos (db : BackendDB) (gid : String) (infos : List VideoInfo) : BackendDB :=
  infos.foldl
    (fun d info =>
      { d with
          videos := d.videos ++
            [{ rowid := d.next_rowid, group_id := gid, video_id := info.video_id,
               title := info.title, thumbnail := info.thumbnail,
               duration := info.duration, uploader := info.uploader }],
          next_rowid := d.next_rowid + 1 })
    db

inductive AddVideosOutcome where
  | ok (added_count : Nat)
  | notFound
  | missingIds
deriving Repr, DecidableEq

/-- The manual-id branch of `add_videos_to_group` (src/backend/server.py
lines 713-858, manual path): 404 when the group is unknown; the existing
membership of the group is loaded once; 400 when `video_ids` is empty;
otherwise every id is enriched through the dedup loop and the new records
are inserted, reporting `added_count`. -/
def add_videos_to_group (db : BackendDB) (gid : String) (video_ids : List String)
    (resolve : String → Except String FlatInfo) : BackendDB × AddVideosOutcome :=
  if ¬ db.groups.any (fun g => g.id == gid) then (db, .notFound)
  else
    let existing := (db.videos.filter (fun r => r.group_id == gid)).map
      (fun r => r.video_id)
    if video_ids.isEmpty then (db, .missingIds)
    else
      let res := enrich_ids resolve existing video_ids
      (insert_videos db gid res.1, .ok res.1.length)

/-- The number of membership rows of the pair `(gid, vid)` in the
`videos` table. -/
def mem_count (db : BackendDB) (gid vid : String) : Nat :=
  (db.videos.filter (fun r => r.group_id == gid && r.video_id == vid)).length

end Backend

/- ======== Bulk multi-channel fetch (get_blippi_videos) ================ -/

namespace Blippi

/-- One entry of the flattened channel listing returned by the resolver
inside `get_blippi_videos`: the dictionary keys the loop reads, each
possibly absent. -/
structure ChannelEntry where
  id : Option String
  title : Option String
  thumbnail : Option String
  duration : Option Nat
  uploader : Option String
deriving Repr, DecidableEq

/-- The video object built for one channel entry. -/
structure ChannelVideo where
  video_id : String
  title : String
  thumbnail : String
  url : String
  duration : Nat
  uploader : String
deriving Repr, DecidableEq

/-- The per-entry mapping of `get_blippi_videos` (src/server.py lines
273-283): skip an entry whose id is missing or falsy, otherwise build the
video object with the defaults of the source. -/
def entry_to_video (e : ChannelEntry) : Option ChannelVideo :=
  match e.id with
  | some vid =>
    if vid.isEmpty then none
    else
      some { video_id := vid,
             title := e.title.getD "Blippi Video",
             thumbnail := e.thumbnail.getD (thumb_template vid),
             url := "https://www.youtube.com/watch?v=" ++ vid,
             duration := e.duration.getD 0,
             uploader := e.uploader.getD "Blippi" }
  | none => none

/-- The body of the per-channel `try` block of `get_blippi_videos`
(src/server.py lines 268-286, identical in src/backend/server.py lines
412-430): a resolver failure is caught with a warning and the channel
contributes nothing (`continue`); an answer without an `entries` key
contributes nothing; otherwise the first `max_results` entries are
mapped. The resolver answer is `Except` of an optional entry list, the
`Option` modelling `if "entries" in info`. -/
def fetch_channel_videos (resolve : String → Except String (Option (List ChannelEntry)))
    (max_results : Nat) (channel_id : String) : List ChannelVideo :=
  match resolve channel_id with
  | .error _ => []
  | .ok none => []
  | .ok (some entries) => (entries.take max_results).filterMap entry_to_video

/-- The response dictionary of `get_blippi_videos`. -/
structure BlippiResponse where
  success : Bool
  videos : List ChannelVideo
  count : Nat
deriving Repr, DecidableEq

/-- The channel loop of `get_blippi_videos`: accumulate `all_videos`
across the channel list, then answer successfully with
`all_videos[:max_results]`. -/
def get_blippi_videos (channels : List String)
    (resolve : String → Except String (Option (List ChannelEntry)))
    (max_results : Nat) : BlippiResponse :=
  let all_videos := channels.foldl
    (fun acc ch => acc ++ fetch_channel_videos resolve max_results ch) []
  { success := true,
    videos := all_videos.take max_results,
    count := (all_videos.take max_results).length }

/-- Whether the resolver call for a channel succeeds (no exception). -/
def resolve_ok (resolve : String → Except String (Option (List ChannelEntry)))
    (channel_id : String) : Bool :=
  match resolve channel_id with
  | .error _ => false
  | .ok _ => true

end Blippi

/- ========================== Theorems ================================== -/

/-- Scanning helper: `find?` answers the first element satisfying the
predicate, wherever it sits in the list. -/
theorem find?_append_first {α : Type} (p : α → Bool) (pre post : List α) (b : α)
    (hpre : ∀ g ∈ pre, p g = false) (hb : p b = true) :
    (pre ++ b :: post).find? p = some b := by
  induction pre with
  | nil => simp [hb]
  | cons a rest ih =>
    have ha : p a = false := hpre a (List.mem_cons_self a rest)
    simp only [List.cons_append, List.find?_cons, ha]
    exact ih fun g hg => hpre g (List.mem_cons_of_mem a hg)

/-- C1: the format selector returns the canonical url field when truthy;
otherwise, on a non-empty candidate list, the URL of the first candidate
whose audio and video codecs are both present (not the string "none"),
regardless of its position; the URL of the last candidate when none
qualifies; and the `NoPlayableStream` failure on an empty candidate list
(or absent `formats` key) with no canonical url. -/
theorem spec_c1_format_selector :
    (∀ (s : String) (formats : Option (List StreamFormat)), s.isEmpty = false →
        extract_video_url (some s) formats = .ok s) ∧
    (∀ (canonical : Option String) (pre post : List StreamFormat) (f : StreamFormat)
        (u : String),
        truthyOpt canonical = false →
        (∀ g ∈ pre, has_audio_video g = false) →
        has_audio_video f = true →
        f.url = some u → u.isEmpty = false →
        extract_video_url canonical (some (pre ++ f :: post)) = .ok u) ∧
    (∀ (canonical : Option String) (fs : List StreamFormat) (f : StreamFormat) (u : String),
        truthyOpt canonical = false →
        (∀ g ∈ fs, has_audio_video g = false) →
        fs.getLast? = some f →
        f.url = some u → u.isEmpty = false →
        extract_video_url canonical (some fs) = .ok u) ∧
    (∀ canonical : Option String, truthyOpt canonical = false →
        extract_video_url canonical (some []) = .noPlayableStream ∧
        extract_video_url canonical none = .noPlayableStream) := by
  refine ⟨?_, ?_, ?_, ?_⟩
  · intro s formats h
    simp [extract_video_url, select_format_url, truthyOpt, h]
  · intro canonical pre post f u hc hpre hf hu hue
    have hfind : (pre ++ f :: post).find? has_audio_video = some f :=
      find?_append_first _ _ _ _ hpre hf
    simp [extract_video_url, select_format_url, hc, hfind, hu, hue]
  · intro canonical fs f u hc hall hlast hu hue
    have hfind : fs.find? has_audio_video = none := by
      apply List.find?_eq_none.mpr
      intro x hx
      simp [hall x hx]
    simp [extract_video_url, select_format_url, hc, hfind, hlast, hu, hue]
  · intro canonical hc
    match canonical with
    | none => exact ⟨rfl, rfl⟩
    | some s =>
      have hs : s.isEmpty = true := by
        simpa [truthyOpt] using hc
      constructor <;> simp [extract_video_url, select_format_url, truthyOpt, hs]

/-- Witness for C1: two candidates, only the second muxed; its URL is
selected despite its position. -/
theorem spec_c1_format_selector_witness :
    extract_video_url none
      (some [{ acodec := some "mp4a", vcodec := some "none", url := some "https://a" },
             { acodec := some "mp4a", vcodec := some "avc1", url := some "https://m" }]) =
      .ok "https://m" := by
  have h := spec_c1_format_selector
  exact h.2.1 none [{ acodec := some "mp4a", vcodec := some "none", url := some "https://a" }]
    [] { acodec := some "mp4a", vcodec := some "avc1", url := some "https://m" }
    "https://m" rfl (by decide) (by decide) rfl rfl

/-- A put is always found afresh under its own key. -/
theorem cache_put_find {α : Type} (c : VCache α) (k : String) (v : α) (t : Nat) :
    (cache_put c k v t).find? (fun e => e.1 == k) = some (k, v, t) := by
  induction c with
  | nil => simp [cache_put]
  | cons e rest ih =>
    by_cases he : e.1 == k
    · simp [cache_put, he]
    · simp [cache_put, he, ih]

/-- A second put under the same key replaces in place: the cache does not
grow. -/
theorem cache_put_put_length {α : Type} (c : VCache α) (k : String) (v w : α) (t u : Nat) :
    (cache_put (cache_put c k v t) k w u).length = (cache_put c k v t).length := by
  induction c with
  | nil => simp [cache_put]
  | cons e rest ih =>
    by_cases he : e.1 == k
    · simp [cache_put, he]
    · simp [cache_put, he, ih]

/-- C2: a get strictly less than one hour after the put of the key
returns exactly the stored payload; a get at or after one hour behaves as
a miss; on a miss the resolver is re-invoked and its result written; and
the next put under the key replaces the stale entry in place instead of
accumulating. -/
theorem spec_c2_cache_ttl {α : Type} :
    (∀ (c : VCache α) (k : String) (v : α) (t now : Nat),
        t ≤ now → now - t < cache_timeout →
        cache_get (cache_put c k v t) k now = some v) ∧
    (∀ (c : VCache α) (k : String) (v : α) (t now : Nat),
        t + cache_timeout ≤ now →
        cache_get (cache_put c k v t) k now = none) ∧
    (∀ (c : VCache α) (k : String) (v : α) (t now : Nat) (resolve : Unit → α),
        t + cache_timeout ≤ now →
        extract_with_cache (cache_put c k v t) k now resolve =
          (resolve (), cache_put (cache_put c k v t) k (resolve ()) now)) ∧
    (∀ (c : VCache α) (k : String) (v w : α) (t u : Nat),
        (cache_put (cache_put c k v t) k w u).find? (fun e => e.1 == k) = some (k, w, u) ∧
        (cache_put (cache_put c k v t) k w u).length = (cache_put c k v t).length) := by
  have hmiss : ∀ (c : VCache α) (k : String) (v : α) (t now : Nat),
      t + cache_timeout ≤ now → cache_get (cache_put c k v t) k now = none := by
    intro c k v t now h
    have h2 : ¬ (now - t < cache_timeout) := by omega
    unfold cache_get
    rw [cache_put_find]
    simp [h2]
  refine ⟨?_, hmiss, ?_, ?_⟩
  · intro c k v t now h1 h2
    unfold cache_get
    rw [cache_put_find]
    simp [h2]
  · intro c k v t now resolve h
    simp [extract_with_cache, hmiss c k v t now h]
  · intro c k v w t u
    exact ⟨cache_put_find _ _ _ _, cache_put_put_length _ _ _ _ _ _⟩

/-- Witness for C2: a concrete put at time 100 is a hit at time 200 and a
miss at time 3700. -/
theorem spec_c2_cache_ttl_witness :
    cache_get (cache_put ([] : VCache Nat) "video_abc" 7 100) "video_abc" 200 = some 7 ∧
    cache_get (cache_put ([] : VCache Nat) "video_abc" 7 100) "video_abc" 3700 = none := by
  have h := @spec_c2_cache_ttl Nat
  exact ⟨h.1 [] "video_abc" 7 100 200 (by omega) (by decide),
         h.2.1 [] "video_abc" 7 100 3700 (by decide)⟩

/-- Folding with list append accumulates the per-element lists in order. -/
theorem foldl_append_eq {α β : Type} (f : α → List β) (l : List α) (acc : List β) :
    l.foldl (fun a c => a ++ f c) acc = acc ++ (l.map f).flatten := by
  induction l generalizing acc with
  | nil => simp
  | cons c rest ih => simp [ih, List.append_assoc]

/-- Elements mapped to the empty list contribute nothing to the joined
result: filtering them away changes nothing. -/
theorem join_map_filter {α β : Type} (f : α → List β) (p : α → Bool) (l : List α)
    (h : ∀ c ∈ l, p c = false → f c = []) :
    ((l.filter p).map f).flatten = (l.map f).flatten := by
  induction l with
  | nil => rfl
  | cons c rest ih =>
    by_cases hp : p c
    · simp [List.filter_cons, hp, ih fun x hx => h x (List.mem_cons_of_mem c hx)]
    · have hc : f c = [] := h c (List.mem_cons_self c rest) (by simpa using hp)
      simp [List.filter_cons, hp, hc, ih fun x hx => h x (List.mem_cons_of_mem c hx)]

/-- C8: the bulk multi-channel fetch always succeeds; it behaves exactly
as if the channels whose resolver call fails were absent from the list;
its video list is the truncated concatenation of the per-channel results;
and a channel whose resolver call fails contributes nothing. -/
theorem spec_c8_bulk_fetch_isolation :
    (∀ (channels : List String)
        (resolve : String → Except String (Option (List Blippi.ChannelEntry)))
        (max_results : Nat),
        (Blippi.get_blippi_videos channels resolve max_results).success = true) ∧
    (∀ (channels : List String)
        (resolve : String → Except String (Option (List Blippi.ChannelEntry)))
        (max_results : Nat),
        Blippi.get_blippi_videos channels resolve max_results =
          Blippi.get_blippi_videos (channels.filter (Blippi.resolve_ok resolve))
            resolve max_results) ∧
    (∀ (channels : List String)
        (resolve : String → Except String (Option (List Blippi.ChannelEntry)))
        (max_results : Nat),
        (Blippi.get_blippi_videos channels resolve max_results).videos =
          ((channels.map (Blippi.fetch_channel_videos resolve max_results)).flatten).take
            max_results) ∧
    (∀ (resolve : String → Except String (Option (List Blippi.ChannelEntry)))
        (max_results : Nat) (ch err : String), resolve ch = .error err →
        Blippi.fetch_channel_videos resolve max_results ch = []) := by
  have hfail : ∀ (resolve : String → Except String (Option (List Blippi.ChannelEntry)))
      (m : Nat) (ch : String), Blippi.resolve_ok resolve ch = false →
      Blippi.fetch_channel_videos resolve m ch = [] := by
    intro resolve m ch h
    unfold Blippi.resolve_ok at h
    unfold Blippi.fetch_channel_videos
    cases hr : resolve ch with
    | error e => rfl
    | ok o => rw [hr] at h; simp at h
  refine ⟨?_, ?_, ?_, ?_⟩
  · intro channels resolve m
    simp [Blippi.get_blippi_videos]
  · intro channels resolve m
    have key := join_map_filter (Blippi.fetch_channel_videos resolve m)
      (Blippi.resolve_ok resolve) channels (fun c _ hc => hfail resolve m c hc)
    simp [Blippi.get_blippi_videos, foldl_append_eq, key]
  · intro channels resolve m
    simp [Blippi.get_blippi_videos, foldl_append_eq]
  · intro resolve m ch err h
    unfold Blippi.fetch_channel_videos
    rw [h]

/-- Witness for C8: a resolver that fails on one channel contributes
nothing for it, and the fetch over a failing and a succeeding channel
still returns the videos of the succeeding one. -/
theorem spec_c8_bulk_fetch_isolation_witness :
    Blippi.fetch_channel_videos
      (fun ch => if ch = "UCbad" then Except.error "boom"
                 else Except.ok (some [{ id := some "v1", title := none, thumbnail := none,
                                         duration := none, uploader := none }]))
      50 "UCbad" = [] := by
  have h := spec_c8_bulk_fetch_isolation
  exact h.2.2.2
    (fun ch => if ch = "UCbad" then Except.error "boom"
               else Except.ok (some [{ id := some "v1", title := none, thumbnail := none,
                                       duration := none, uploader := none }]))
    50 "UCbad" "boom" (by simp)

/-- The record built by `fetch_video_info` always carries the id it was
asked about, whether or not the lookup succeeded. -/
theorem fetch_video_info_id (resolve : String → Except String Backend.FlatInfo) (v : String) :
    (Backend.fetch_video_info resolve v).video_id = v := by
  unfold Backend.fetch_video_info
  cases resolve v <;> rfl

/-- The id `v` is listed among the existing ids of a group exactly when
the group holds a membership row for it. -/
theorem mem_existing_iff (db : Backend.BackendDB) (gid v : String) :
    v ∈ (db.videos.filter (fun r => r.group_id == gid)).map (fun r => r.video_id) ↔
      0 < Backend.mem_count db gid v := by
  unfold Backend.mem_count
  rw [List.length_pos_iff_exists_mem]
  constructor
  · intro h
    obtain ⟨r, hr, hv⟩ := List.mem_map.mp h
    have hr2 := List.mem_filter.mp hr
    refine ⟨r, List.mem_filter.mpr ⟨hr2.1, ?_⟩⟩
    simp only [Bool.and_eq_true]
    exact ⟨hr2.2, by simp [hv]⟩
  · intro h
    obtain ⟨r, hr⟩ := h
    have hr2 := List.mem_filter.mp hr
    have hand := hr2.2
    simp only [Bool.and_eq_true, beq_iff_eq] at hand
    refine List.mem_map.mpr ⟨r, List.mem_filter.mpr ⟨hr2.1, ?_⟩, hand.2⟩
    simp [hand.1]

/-- A single already-known id is skipped whole by the enrichment loop. -/
theorem enrich_ids_member (resolve : String → Except String Backend.FlatInfo)
    (existing : List String) (v : String)
    (ht : py_strip v = v) (hmem : v ∈ existing) :
    Backend.enrich_ids resolve existing [v] = ([], existing) := by
  unfold Backend.enrich_ids
  simp [Backend.enrich_step, ht, hmem]

/-- A single fresh non-empty id is enriched and appended by the loop. -/
theorem enrich_ids_fresh (resolve : String → Except String Backend.FlatInfo)
    (existing : List String) (v : String)
    (ht : py_strip v = v) (hne : v ≠ "") (hmem : v ∉ existing) :
    Backend.enrich_ids resolve existing [v] =
      ([Backend.fetch_video_info resolve v], v :: existing) := by
  unfold Backend.enrich_ids
  simp [Backend.enrich_step, ht, hne, hmem]

/-- The insertion loop never touches the `groups` table. -/
theorem insert_videos_groups (gid : String) (infos : List Backend.VideoInfo) :
    ∀ db : Backend.BackendDB, (Backend.insert_videos db gid infos).groups = db.groups := by
  induction infos with
  | nil => intro db; rfl
  | cons i rest ih => intro db; exact ih _

/-- Inserting a single record for the pair adds exactly one membership
row for it. -/
theorem mem_count_insert_one (db : Backend.BackendDB) (gid v : String)
    (info : Backend.VideoInfo) (hid : info.video_id = v) :
    Backend.mem_count (Backend.insert_videos db gid [info]) gid v =
      Backend.mem_count db gid v + 1 := by
  unfold Backend.insert_videos Backend.mem_count
  simp [List.filter_append, hid]

/-- C3: an id that is already a member of the group is silently skipped,
with added_count 0 and the store unchanged; a fresh id added once yields
added_count 1 and exactly one membership row, and adding it a second time
yields added_count 0 and leaves the store, hence that single row,
untouched. -/
theorem spec_c3_duplicate_add :
    (∀ (db : Backend.BackendDB) (gid v : String)
        (resolve : String → Except String Backend.FlatInfo),
        db.groups.any (fun g => g.id == gid) = true →
        py_strip v = v → 0 < Backend.mem_count db gid v →
        Backend.add_videos_to_group db gid [v] resolve = (db, .ok 0)) ∧
    (∀ (db : Backend.BackendDB) (gid v : String)
        (resolve resolve2 : String → Except String Backend.FlatInfo),
        db.groups.any (fun g => g.id == gid) = true →
        py_strip v = v → v ≠ "" → Backend.mem_count db gid v = 0 →
        (Backend.add_videos_to_group db gid [v] resolve).2 = .ok 1 ∧
        Backend.mem_count (Backend.add_videos_to_group db gid [v] resolve).1 gid v = 1 ∧
        Backend.add_videos_to_group (Backend.add_videos_to_group db gid [v] resolve).1
            gid [v] resolve2 =
          ((Backend.add_videos_to_group db gid [v] resolve).1, .ok 0)) := by
  have hdup : ∀ (db : Backend.BackendDB) (gid v : String)
      (resolve : String → Except String Backend.FlatInfo),
      db.groups.any (fun g => g.id == gid) = true →
      py_strip v = v → 0 < Backend.mem_count db gid v →
      Backend.add_videos_to_group db gid [v] resolve = (db, .ok 0) := by
    intro db gid v resolve hgrp ht hpos
    have hmem := (mem_existing_iff db gid v).mpr hpos
    unfold Backend.add_videos_to_group
    rw [hgrp]
    simp [enrich_ids_member resolve _ v ht hmem, Backend.insert_videos]
  refine ⟨hdup, ?_⟩
  intro db gid v resolve resolve2 hgrp ht hne h0
  have hnot : v ∉ (db.videos.filter (fun r => r.group_id == gid)).map
      (fun r => r.video_id) := by
    intro hmem
    have := (mem_existing_iff db gid v).mp hmem
    omega
  have hadd : Backend.add_videos_to_group db gid [v] resolve =
      (Backend.insert_videos db gid [Backend.fetch_video_info resolve v], .ok 1) := by
    unfold Backend.add_videos_to_group
    rw [hgrp]
    simp [enrich_ids_fresh resolve _ v ht hne hnot]
  have hcount : Backend.mem_count (Backend.add_videos_to_group db gid [v] resolve).1
      gid v = 1 := by
    rw [hadd]
    have := mem_count_insert_one db gid v (Backend.fetch_video_info resolve v)
      (fetch_video_info_id resolve v)
    simpa [h0] using this
  refine ⟨by rw [hadd], hcount, ?_⟩
  have hgrp2 : (Backend.add_videos_to_group db gid [v] resolve).1.groups.any
      (fun g => g.id == gid) = true := by
    rw [hadd]
    rw [insert_videos_groups]
    exact hgrp
  exact hdup _ gid v resolve2 hgrp2 ht (by omega)

/-- Witness for C3: a fresh id added to an empty group yields
added_count 1 and one membership row, even with an offline resolver. -/
theorem spec_c3_duplicate_add_witness :
    (Backend.add_videos_to_group
        { groups := [{ id := "g1", name := "Kids", description := "" }],
          videos := [], next_rowid := 1 }
        "g1" ["abc123"] (fun _ => Except.error "offline")).2 =
      Backend.AddVideosOutcome.ok 1 ∧
    Backend.mem_count (Backend.add_videos_to_group
        { groups := [{ id := "g1", name := "Kids", description := "" }],
          videos := [], next_rowid := 1 }
        "g1" ["abc123"] (fun _ => Except.error "offline")).1 "g1" "abc123" = 1 := by
  have h := spec_c3_duplicate_add.2
    { groups := [{ id := "g1", name := "Kids", description := "" }],
      videos := [], next_rowid := 1 }
    "g1" "abc123" (fun _ => Except.error "offline") (fun _ => Except.error "offline")
    (by decide) (by decide) (by decide) (by decide)
  exact ⟨h.1, h.2.1⟩

/-- Reduction of one enrichment step when the stripped id is non-empty
and fresh. -/
theorem enrich_step_pos (resolve : String → Except String Backend.FlatInfo)
    (acc : List Backend.VideoInfo × List String) (raw : String)
    (h : py_strip raw ≠ "" ∧ py_strip raw ∉ acc.2) :
    Backend.enrich_step resolve acc raw =
      (acc.1 ++ [Backend.fetch_video_info resolve (py_strip raw)],
       py_strip raw :: acc.2) := by
  simp only [Backend.enrich_step]
  rw [if_pos h]

/-- Reduction of one enrichment step when the stripped id is empty or
already known. -/
theorem enrich_step_neg (resolve : String → Except String Backend.FlatInfo)
    (acc : List Backend.VideoInfo × List String) (raw : String)
    (h : ¬ (py_strip raw ≠ "" ∧ py_strip raw ∉ acc.2)) :
    Backend.enrich_step resolve acc raw = acc := by
  simp only [Backend.enrich_step]
  rw [if_neg h]

/-- Records accumulated so far survive the rest of the enrichment loop. -/
theorem enrich_foldl_grows (resolve : String → Except String Backend.FlatInfo)
    (ids : List String) :
    ∀ (acc : List Backend.VideoInfo × List String) (info : Backend.VideoInfo),
      info ∈ acc.1 → info ∈ (ids.foldl (Backend.enrich_step resolve) acc).1 := by
  induction ids with
  | nil => intro acc info h; exact h
  | cons raw rest ih =>
    intro acc info h
    simp only [List.foldl_cons]
    apply ih
    by_cases hc : py_strip raw ≠ "" ∧ py_strip raw ∉ acc.2
    · rw [enrich_step_pos resolve acc raw hc]
      exact List.mem_append.mpr (Or.inl h)
    · rw [enrich_step_neg resolve acc raw hc]
      exact h

/-- Ids known so far stay known through the rest of the loop. -/
theorem enrich_seen_grows (resolve : String → Except String Backend.FlatInfo)
    (ids : List String) :
    ∀ (acc : List Backend.VideoInfo × List String) (x : String),
      x ∈ acc.2 → x ∈ (ids.foldl (Backend.enrich_step resolve) acc).2 := by
  induction ids with
  | nil => intro acc x h; exact h
  | cons raw rest ih =>
    intro acc x h
    simp only [List.foldl_cons]
    apply ih
    by_cases hc : py_strip raw ≠ "" ∧ py_strip raw ∉ acc.2
    · rw [enrich_step_pos resolve acc raw hc]
      exact List.mem_cons_of_mem _ h
    · rw [enrich_step_neg resolve acc raw hc]
      exact h

/-- Every non-empty already-stripped id of the batch ends up known: the
loop reaches every element of the list, whatever the resolver did on the
earlier ones. -/
theorem enrich_processes (resolve : String → Except String Backend.FlatInfo)
    (ids : List String) :
    ∀ (acc : List Backend.VideoInfo × List String) (v : String),
      v ∈ ids → py_strip v = v → v ≠ "" →
      v ∈ (ids.foldl (Backend.enrich_step resolve) acc).2 := by
  induction ids with
  | nil => intro acc v hv; cases hv
  | cons raw rest ih =>
    intro acc v hv ht hne
    simp only [List.foldl_cons]
    rcases List.mem_cons.mp hv with rfl | hv2
    · apply enrich_seen_grows
      by_cases hc : py_strip v ≠ "" ∧ py_strip v ∉ acc.2
      · rw [enrich_step_pos resolve acc v hc, ht]
        exact List.mem_cons_self _ _
      · rw [enrich_step_neg resolve acc v hc]
        rw [ht] at hc
        push_neg at hc
        exact hc hne
    · exact ih _ v hv2 ht hne

/-- Every id known after the loop was either known before it or is the id
of some accumulated record. -/
theorem enrich_seen_from (resolve : String → Except String Backend.FlatInfo)
    (ids : List String) :
    ∀ (acc : List Backend.VideoInfo × List String) (x : String),
      x ∈ (ids.foldl (Backend.enrich_step resolve) acc).2 →
      x ∈ acc.2 ∨ ∃ info ∈ (ids.foldl (Backend.enrich_step resolve) acc).1,
        info.video_id = x := by
  induction ids with
  | nil => intro acc x h; exact Or.inl h
  | cons raw rest ih =>
    intro acc x hx
    simp only [List.foldl_cons] at hx ⊢
    rcases ih _ x hx with h | h
    · by_cases hc : py_strip raw ≠ "" ∧ py_strip raw ∉ acc.2
      · rw [enrich_step_pos resolve acc raw hc] at h
        rcases List.mem_cons.mp h with h2 | h2
        · right
          refine ⟨Backend.fetch_video_info resolve (py_strip raw), ?_, ?_⟩
          · apply enrich_foldl_grows
            rw [enrich_step_pos resolve acc raw hc]
            exact List.mem_append.mpr (Or.inr (List.mem_cons_self _ _))
          · rw [fetch_video_info_id, h2]
        · exact Or.inl h2
      · rw [enrich_step_neg resolve acc raw hc] at h
        exact Or.inl h
    · exact Or.inr h

/-- Every record accumulated by the loop is the enrichment of its own
id. -/
theorem enrich_values (resolve : String → Except String Backend.FlatInfo)
    (ids : List String) :
    ∀ acc, (∀ info ∈ acc.1, info = Backend.fetch_video_info resolve info.video_id) →
      ∀ info ∈ (ids.foldl (Backend.enrich_step resolve) acc).1,
        info = Backend.fetch_video_info resolve info.video_id := by
  induction ids with
  | nil => intro acc h; exact h
  | cons raw rest ih =>
    intro acc h
    simp only [List.foldl_cons]
    apply ih
    intro info hinfo
    by_cases hc : py_strip raw ≠ "" ∧ py_strip raw ∉ acc.2
    · rw [enrich_step_pos resolve acc raw hc] at hinfo
      rcases List.mem_append.mp hinfo with h2 | h2
      · exact h info h2
      · have h3 : info = Backend.fetch_video_info resolve (py_strip raw) :=
          List.mem_singleton.mp h2
        rw [h3, fetch_video_info_id]
    · rw [enrich_step_neg resolve acc raw hc] at hinfo
      exact h info hinfo

/-- Which ids the loop processes, and in which order, does not depend on
the resolver at all. -/
theorem enrich_resolver_independent (resolve resolve2 : String → Except String Backend.FlatInfo)
    (ids : List String) :
    ∀ (acc acc2 : List Backend.VideoInfo × List String),
      acc.1.map (fun i => i.video_id) = acc2.1.map (fun i => i.video_id) →
      acc.2 = acc2.2 →
      (ids.foldl (Backend.enrich_step resolve) acc).1.map (fun i => i.video_id) =
        (ids.foldl (Backend.enrich_step resolve2) acc2).1.map (fun i => i.video_id) ∧
      (ids.foldl (Backend.enrich_step resolve) acc).2 =
        (ids.foldl (Backend.enrich_step resolve2) acc2).2 := by
  induction ids with
  | nil => intro acc acc2 h1 h2; exact ⟨h1, h2⟩
  | cons raw rest ih =>
    intro acc acc2 h1 h2
    simp only [List.foldl_cons]
    by_cases hc : py_strip raw ≠ "" ∧ py_strip raw ∉ acc.2
    · have hc2 : py_strip raw ≠ "" ∧ py_strip raw ∉ acc2.2 := by rw [← h2]; exact hc
      rw [enrich_step_pos resolve acc raw hc, enrich_step_pos resolve2 acc2 raw hc2]
      apply ih
      · simp [h1, fetch_video_info_id]
      · simp [h2]
    · have hc2 : ¬ (py_strip raw ≠ "" ∧ py_strip raw ∉ acc2.2) := by rw [← h2]; exact hc
      rw [enrich_step_neg resolve acc raw hc, enrich_step_neg resolve2 acc2 raw hc2]
      exact ih acc acc2 h1 h2

/-- C9: a failed flattened lookup is caught inside `fetch_video_info` and
degrades to the placeholder record (title "Unknown Title", uploader
"Unknown", duration 0, thumbnail templated from the id); which ids the
enrichment batch processes, and how many, is entirely independent of
lookup failures; and a failing fresh id still contributes exactly its
placeholder record to the batch output, the rest of the batch being
processed as usual. -/
theorem spec_c9_enrichment_placeholder :
    (∀ (resolve : String → Except String Backend.FlatInfo) (vid err : String),
        resolve vid = .error err →
        Backend.fetch_video_info resolve vid =
          { video_id := vid, title := "Unknown Title", thumbnail := thumb_template vid,
            duration := 0, uploader := "Unknown" }) ∧
    (∀ (resolve resolve2 : String → Except String Backend.FlatInfo)
        (existing ids : List String),
        (Backend.enrich_ids resolve existing ids).1.map (fun i => i.video_id) =
          (Backend.enrich_ids resolve2 existing ids).1.map (fun i => i.video_id) ∧
        (Backend.enrich_ids resolve existing ids).1.length =
          (Backend.enrich_ids resolve2 existing ids).1.length) ∧
    (∀ (resolve : String → Except String Backend.FlatInfo)
        (existing ids : List String) (vid err : String),
        vid ∈ ids → py_strip vid = vid → vid ≠ "" → vid ∉ existing →
        resolve vid = .error err →
        ({ video_id := vid, title := "Unknown Title", thumbnail := thumb_template vid,
           duration := 0, uploader := "Unknown" } : Backend.VideoInfo) ∈
          (Backend.enrich_ids resolve existing ids).1) := by
  have hplaceholder : ∀ (resolve : String → Except String Backend.FlatInfo) (vid err : String),
      resolve vid = .error err →
      Backend.fetch_video_info resolve vid =
        { video_id := vid, title := "Unknown Title", thumbnail := thumb_template vid,
          duration := 0, uploader := "Unknown" } := by
    intro resolve vid err h
    unfold Backend.fetch_video_info
    rw [h]
  refine ⟨hplaceholder, ?_, ?_⟩
  · intro resolve resolve2 existing ids
    have h := enrich_resolver_independent resolve resolve2 ids ([], existing) ([], existing)
      rfl rfl
    refine ⟨h.1, ?_⟩
    have h2 := congrArg List.length h.1
    simpa using h2
  · intro resolve existing ids vid err hmemids ht hne hnotex hres
    have hseen : vid ∈ (Backend.enrich_ids resolve existing ids).2 :=
      enrich_processes resolve ids ([], existing) vid hmemids ht hne
    rcases enrich_seen_from resolve ids ([], existing) vid hseen with h | h
    · exact absurd h hnotex
    · obtain ⟨info, hinfo, hid⟩ := h
      have hval := enrich_values resolve ids ([], existing)
        (by intro i hi; cases hi) info hinfo
      have heq : ({ video_id := vid, title := "Unknown Title",
                    thumbnail := thumb_template vid, duration := 0,
                    uploader := "Unknown" } : Backend.VideoInfo) = info := by
        rw [hval, hid, hplaceholder resolve vid err hres]
      rw [heq]
      exact hinfo

/-- Witness for C9: with a resolver that always fails, a batch of two ids
still carries the placeholder record of the second id. -/
theorem spec_c9_enrichment_placeholder_witness :
    ({ video_id := "badid", title := "Unknown Title",
       thumbnail := thumb_template "badid", duration := 0,
       uploader := "Unknown" } : Backend.VideoInfo) ∈
      (Backend.enrich_ids (fun _ => Except.error "blocked") [] ["goodid", "badid"]).1 :=
  spec_c9_enrichment_placeholder.2.2 (fun _ => Except.error "blocked") [] ["goodid", "badid"]
    "badid" "blocked" (by decide) (by decide) (by decide) (by decide) rfl

/-- A filter that keeps every element is the identity. -/
theorem filter_eq_self_of_all {α : Type} (l : List α) (p : α → Bool)
    (h : ∀ a ∈ l, p a = true) : l.filter p = l := by
  induction l with
  | nil => rfl
  | cons a rest ih =>
    rw [List.filter_cons, if_pos (h a (List.mem_cons_self a rest))]
    rw [ih fun a ha => h a (List.mem_cons_of_mem _ ha)]

/-- A map that fixes every element is the identity. -/
theorem map_eq_self_of_all {α : Type} (l : List α) (f : α → α)
    (h : ∀ a ∈ l, f a = a) : l.map f = l := by
  induction l with
  | nil => rfl
  | cons a rest ih =>
    rw [List.map_cons, h a (List.mem_cons_self a rest)]
    rw [ih fun a ha => h a (List.mem_cons_of_mem _ ha)]

/-- `maxPos` answers NULL exactly on the empty row set. -/
theorem maxPos_none_iff (l : List Catalog.GroupVideoRow) :
    Catalog.maxPos l = none ↔ l = [] := by
  cases l with
  | nil => simp [Catalog.maxPos]
  | cons r rs =>
    unfold Catalog.maxPos
    cases h : Catalog.maxPos rs <;> simp

/-- Every row position is bounded by the maximum. -/
theorem maxPos_le (l : List Catalog.GroupVideoRow) :
    ∀ m, Catalog.maxPos l = some m → ∀ r ∈ l, r.position ≤ m := by
  induction l with
  | nil => intro m _ r hr; cases hr
  | cons a rs ih =>
    intro m h r hr
    unfold Catalog.maxPos at h
    rcases List.mem_cons.mp hr with rfl | hr2
    · cases hrs : Catalog.maxPos rs with
      | none => rw [hrs] at h; simp at h; omega
      | some m2 => rw [hrs] at h; simp at h; omega
    · cases hrs : Catalog.maxPos rs with
      | none => rw [(maxPos_none_iff rs).mp hrs] at hr2; cases hr2
      | some m2 =>
        rw [hrs] at h
        simp at h
        have := ih m2 hrs r hr2
        omega

/-- The maximum is attained by some row. -/
theorem maxPos_mem (l : List Catalog.GroupVideoRow) :
    ∀ m, Catalog.maxPos l = some m → ∃ r ∈ l, r.position = m := by
  induction l with
  | nil => intro m h; cases h
  | cons a rs ih =>
    intro m h
    unfold Catalog.maxPos at h
    cases hrs : Catalog.maxPos rs with
    | none =>
      rw [hrs] at h
      simp at h
      exact ⟨a, List.mem_cons_self _ _, h⟩
    | some m2 =>
      rw [hrs] at h
      simp at h
      rcases Nat.le_total a.position m2 with hle | hle
      · obtain ⟨r, hr, hrm⟩ := ih m2 hrs
        refine ⟨r, List.mem_cons_of_mem _ hr, ?_⟩
        omega
      · exact ⟨a, List.mem_cons_self _ _, by omega⟩

/-- `minPosRow` answers a row exactly on a non-empty row set. -/
theorem minPosRow_none_iff (l : List Catalog.GroupVideoRow) :
    Catalog.minPosRow l = none ↔ l = [] := by
  cases l with
  | nil => simp [Catalog.minPosRow]
  | cons r rs =>
    unfold Catalog.minPosRow
    cases h : Catalog.minPosRow rs with
    | none => simp
    | some m =>
      by_cases hle : r.position ≤ m.position <;> simp [hle]

/-- The row answered by `minPosRow` belongs to the row set. -/
theorem minPosRow_mem (l : List Catalog.GroupVideoRow) :
    ∀ r, Catalog.minPosRow l = some r → r ∈ l := by
  induction l with
  | nil => intro r h; cases h
  | cons a rs ih =>
    intro r h
    unfold Catalog.minPosRow at h
    cases hrs : Catalog.minPosRow rs with
    | none =>
      rw [hrs] at h
      simp at h
      rw [← h]
      exact List.mem_cons_self _ _
    | some m =>
      simp only [hrs] at h
      by_cases hle : a.position ≤ m.position
      · rw [if_pos hle] at h
        simp at h
        rw [← h]
        exact List.mem_cons_self _ _
      · rw [if_neg hle] at h
        simp at h
        rw [← h]
        exact List.mem_cons_of_mem _ (ih m hrs)

/-- The row answered by `minPosRow` has the smallest position. -/
theorem minPosRow_min (l : List Catalog.GroupVideoRow) :
    ∀ r, Catalog.minPosRow l = some r → ∀ s ∈ l, r.position ≤ s.position := by
  induction l with
  | nil => intro r h; cases h
  | cons a rs ih =>
    intro r h s hs
    unfold Catalog.minPosRow at h
    cases hrs : Catalog.minPosRow rs with
    | none =>
      rw [hrs] at h
      simp at h
      rcases List.mem_cons.mp hs with rfl | hs2
      · rw [← h]
      · rw [(minPosRow_none_iff rs).mp hrs] at hs2
        cases hs2
    | some m =>
      simp only [hrs] at h
      by_cases hle : a.position ≤ m.position
      · rw [if_pos hle] at h
        simp at h
        rcases List.mem_cons.mp hs with rfl | hs2
        · rw [← h]
        · rw [← h]
          exact le_trans hle (ih m hrs s hs2)
      · rw [if_neg hle] at h
        simp at h
        rcases List.mem_cons.mp hs with rfl | hs2
        · rw [← h]
          omega
        · rw [← h]
          exact ih m hrs s hs2

/-- A non-empty row set has a first row by position. -/
theorem minPosRow_isSome (l : List Catalog.GroupVideoRow) (h : l ≠ []) :
    ∃ r, Catalog.minPosRow l = some r := by
  cases hm : Catalog.minPosRow l with
  | none => exact absurd ((minPosRow_none_iff l).mp hm) h
  | some r => exact ⟨r, rfl⟩

/-- The thumbnail update preserves the id of every group row. -/
theorem set_thumbnail_id_pres (gid : Nat) (t : String) (g : Catalog.GroupRow) :
    (if g.id = gid then { g with thumbnail := t } else g).id = g.id := by
  by_cases h : g.id = gid <;> simp [h]

/-- `find?` on an id predicate commutes with an id-preserving row
update. -/
theorem find?_map_id_pres (l : List Catalog.GroupRow) (gid : Nat)
    (f : Catalog.GroupRow → Catalog.GroupRow) (hf : ∀ g, (f g).id = g.id) :
    (l.map f).find? (fun g => g.id == gid) =
      (l.find? (fun g => g.id == gid)).map f := by
  induction l with
  | nil => rfl
  | cons a rest ih =>
    rw [List.map_cons, List.find?_cons, List.find?_cons, hf a]
    by_cases h : (a.id == gid) = true
    · simp [h]
    · simp only [Bool.not_eq_true] at h
      simp [h, ih]

/-- Recomputing the thumbnail of a group in a consistent store writes the
value the group already carries. -/
theorem set_thumbnail_consistent (db : Catalog.CatalogDB) (gid : Nat)
    (hcons : Catalog.Consistent db) :
    Catalog.set_thumbnail db.video_groups gid (Catalog.group_thumb_spec db gid) =
      db.video_groups := by
  unfold Catalog.set_thumbnail
  apply map_eq_self_of_all
  intro g hg
  by_cases h : g.id = gid
  · rw [if_pos h]
    have hc := hcons g hg
    rw [h] at hc
    rw [← hc]
  · rw [if_neg h]

/-- A removal matching no row leaves the store unchanged: nothing is
deleted, and the unconditional thumbnail recomputation writes back the
value a consistent store already carries. -/
theorem delete_video_notFound_eq (db : Catalog.CatalogDB) (gid rid : Nat)
    (hcons : Catalog.Consistent db)
    (hno : ∀ r ∈ db.group_videos, ¬ (r.group_id = gid ∧ r.id = rid)) :
    Catalog.delete_video_from_group db gid rid = (db, Catalog.DeleteResult.notFound) := by
  have hrem : db.group_videos.filter (fun r => ¬ (r.group_id = gid ∧ r.id = rid)) =
      db.group_videos :=
    filter_eq_self_of_all _ _ (fun r hr => by
      simp only [decide_eq_true_eq]
      exact hno r hr)
  have haff : db.group_videos.any (fun r => r.group_id == gid && r.id == rid) = false := by
    rw [List.any_eq_false]
    intro r hr
    simp only [Bool.and_eq_true, beq_iff_eq, not_and]
    intro h1 h2
    exact hno r hr ⟨h1, h2⟩
  have hthumb := set_thumbnail_consistent db gid hcons
  unfold Catalog.group_thumb_spec Catalog.rowsOf at hthumb
  simp only [Catalog.delete_video_from_group]
  rw [hrem, haff, hthumb]
  rfl

/-- An add that does not report ok leaves the store unchanged: the three
failing branches answer before any write, the unique-pair violation
closing the connection uncommitted. -/
theorem add_video_fail_eq (db : Catalog.CatalogDB) (gid : Nat) (vid title : String)
    (thumb : Option String)
    (h : ((Catalog.add_video_to_group db gid vid title thumb).2).isOk = false) :
    (Catalog.add_video_to_group db gid vid title thumb).1 = db := by
  by_cases h1 : (vid.isEmpty || title.isEmpty) = true
  · simp [Catalog.add_video_to_group, h1]
  · by_cases h2 : db.video_groups.any (fun g => g.id == gid) = true
    · by_cases h3 : db.group_videos.any
          (fun r => r.group_id == gid && r.video_id == vid) = true
      · simp [Catalog.add_video_to_group, h1, h2, h3]
      · exfalso
        simp [Catalog.add_video_to_group, Catalog.AddVideoResult.isOk, h1, h2, h3] at h
    · simp [Catalog.add_video_to_group, h1, h2]

/-- A group deletion that reports NotFound leaves the store unchanged. -/
theorem delete_group_notFound_eq (db : Catalog.CatalogDB) (gid : Nat)
    (h : (Catalog.delete_group db gid).2 = Catalog.DeleteResult.notFound) :
    (Catalog.delete_group db gid).1 = db := by
  by_cases h2 : db.video_groups.any (fun g => g.id == gid) = true
  · exfalso
    simp [Catalog.delete_group, h2] at h
  · have hfalse : db.video_groups.any (fun g => g.id == gid) = false := by
      simpa using h2
    have hall : db.video_groups.filter (fun g => !decide (g.id = gid)) = db.video_groups := by
      apply filter_eq_self_of_all
      intro g hg
      have hg2 := List.any_eq_false.mp hfalse g hg
      simpa using hg2
    simp [Catalog.delete_group, hall]

/-- C6: in a consistent store (an invariant of every reachable state),
every failing catalog mutation leaves the store completely unchanged; in
particular removing an absent (group, row) pair reports NotFound and
modifies no table, the thumbnail field of the group included. -/
theorem spec_c6_failure_atomicity :
    ∀ db : Catalog.CatalogDB, Catalog.Consistent db →
      ((∀ name desc : String,
          (Catalog.create_group db name desc).2 = Catalog.CreateGroupResult.validationError →
          (Catalog.create_group db name desc).1 = db) ∧
       (∀ (gid : Nat) (vid title : String) (thumb : Option String),
          ((Catalog.add_video_to_group db gid vid title thumb).2).isOk = false →
          (Catalog.add_video_to_group db gid vid title thumb).1 = db) ∧
       (∀ gid : Nat, (Catalog.delete_group db gid).2 = Catalog.DeleteResult.notFound →
          (Catalog.delete_group db gid).1 = db) ∧
       (∀ gid rid : Nat,
          (Catalog.delete_video_from_group db gid rid).2 = Catalog.DeleteResult.notFound →
          (Catalog.delete_video_from_group db gid rid).1 = db) ∧
       (∀ gid rid : Nat, (∀ r ∈ db.group_videos, ¬ (r.group_id = gid ∧ r.id = rid)) →
          Catalog.delete_video_from_group db gid rid =
            (db, Catalog.DeleteResult.notFound))) := by
  intro db hcons
  refine ⟨?_, fun gid vid title thumb h => add_video_fail_eq db gid vid title thumb h,
          fun gid h => delete_group_notFound_eq db gid h, ?_, ?_⟩
  · intro name desc h
    by_cases he : name.isEmpty = true
    · simp [Catalog.create_group, he]
    · exfalso
      simp [Catalog.create_group, he] at h
  · intro gid rid h
    by_cases haff : db.group_videos.any (fun r => r.group_id == gid && r.id == rid) = true
    · exfalso
      simp [Catalog.delete_video_from_group, haff] at h
    · have hno : ∀ r ∈ db.group_videos, ¬ (r.group_id = gid ∧ r.id = rid) := by
        intro r hr hand
        apply haff
        rw [List.any_eq_true]
        exact ⟨r, hr, by simp [hand.1, hand.2]⟩
      rw [delete_video_notFound_eq db gid rid hcons hno]
  · intro gid rid hno
    exact delete_video_notFound_eq db gid rid hcons hno

/-- Witness for C6: in a one-group, one-member consistent store, removing
a row id that is not present reports NotFound and changes nothing. -/
theorem spec_c6_failure_atomicity_witness :
    Catalog.delete_video_from_group
      { video_groups := [{ id := 1, group_name := "Kids", description := "",
                           thumbnail := "tA" }],
        group_videos := [{ id := 5, group_id := 1, video_id := "vA", video_title := "A",
                           video_thumbnail := "tA", position := 1 }],
        next_group_id := 2, next_row_id := 6 } 1 99 =
      ({ video_groups := [{ id := 1, group_name := "Kids", description := "",
                            thumbnail := "tA" }],
         group_videos := [{ id := 5, group_id := 1, video_id := "vA", video_title := "A",
                            video_thumbnail := "tA", position := 1 }],
         next_group_id := 2, next_row_id := 6 }, Catalog.DeleteResult.notFound) := by
  have h := spec_c6_failure_atomicity
    { video_groups := [{ id := 1, group_name := "Kids", description := "",
                         thumbnail := "tA" }],
      group_videos := [{ id := 5, group_id := 1, video_id := "vA", video_title := "A",
                         video_thumbnail := "tA", position := 1 }],
      next_group_id := 2, next_row_id := 6 }
    (by unfold Catalog.Consistent; decide)
  exact h.2.2.2.2 1 99 (by decide)

/-- C7 exhibit: src/server.py never issues `PRAGMA foreign_keys = ON`, so
sqlite leaves the declared ON DELETE CASCADE unenforced at run time.
Deleting a group therefore removes only its `video_groups` row: the
membership row of group 7 survives orphaned in `group_videos`, against
both the claim and the route docstring "Delete a group and all its
videos". Deleting an unknown id still reports NotFound. -/
theorem spec_c7_delete_group_no_cascade :
    (Catalog.delete_group
        { video_groups := [{ id := 7, group_name := "Kids", description := "",
                             thumbnail := "tB" }],
          group_videos := [{ id := 1, group_id := 7, video_id := "abc", video_title := "A",
                             video_thumbnail := "tB", position := 1 }],
          next_group_id := 8, next_row_id := 2 } 7).2 = Catalog.DeleteResult.ok ∧
    (Catalog.delete_group
        { video_groups := [{ id := 7, group_name := "Kids", description := "",
                             thumbnail := "tB" }],
          group_videos := [{ id := 1, group_id := 7, video_id := "abc", video_title := "A",
                             video_thumbnail := "tB", position := 1 }],
          next_group_id := 8, next_row_id := 2 } 7).1.video_groups = [] ∧
    (Catalog.delete_group
        { video_groups := [{ id := 7, group_name := "Kids", description := "",
                             thumbnail := "tB" }],
          group_videos := [{ id := 1, group_id := 7, video_id := "abc", video_title := "A",
                             video_thumbnail := "tB", position := 1 }],
          next_group_id := 8, next_row_id := 2 } 7).1.group_videos =
      [{ id := 1, group_id := 7, video_id := "abc", video_title := "A",
         video_thumbnail := "tB", position := 1 }] ∧
    (Catalog.delete_group
        { video_groups := [{ id := 7, group_name := "Kids", description := "",
                             thumbnail := "tB" }],
          group_videos := [{ id := 1, group_id := 7, video_id := "abc", video_title := "A",
                             video_thumbnail := "tB", position := 1 }],
          next_group_id := 8, next_row_id := 2 } 99).2 =
      Catalog.DeleteResult.notFound := by
  exact ⟨by decide, by decide, by decide, by decide⟩

/-- C10: adding to a group that already has a member never changes the
video_groups table: under the positions-start-at-1 invariant the new
member receives position 1 only when the group was empty, and the
thumbnail write is guarded by that very condition. -/
theorem spec_c10_add_keeps_thumbnail :
    ∀ (db : Catalog.CatalogDB) (gid : Nat) (vid title : String) (thumb : Option String),
      (∀ r ∈ db.group_videos, 1 ≤ r.position) →
      Catalog.rowsOf db gid ≠ [] →
      ((Catalog.add_video_to_group db gid vid title thumb).1.video_groups =
         db.video_groups ∧
       ∀ rid pos, (Catalog.add_video_to_group db gid vid title thumb).2 =
          Catalog.AddVideoResult.ok rid pos → pos ≠ 1) := by
  intro db gid vid title thumb hpos hne
  have hm : ∃ m, Catalog.maxPos (Catalog.rowsOf db gid) = some m := by
    cases h : Catalog.maxPos (Catalog.rowsOf db gid) with
    | none => exact absurd ((maxPos_none_iff _).mp h) hne
    | some m => exact ⟨m, rfl⟩
  obtain ⟨m, hm⟩ := hm
  have hm1 : 1 ≤ m := by
    obtain ⟨r, hr, hrm⟩ := maxPos_mem _ m hm
    have hr2 : r ∈ db.group_videos := (List.mem_filter.mp hr).1
    have := hpos r hr2
    omega
  have hnp : Catalog.nextPosition db gid = m + 1 := by
    unfold Catalog.nextPosition
    rw [hm]
  have hnp1 : Catalog.nextPosition db gid ≠ 1 := by omega
  constructor
  · by_cases h1 : (vid.isEmpty || title.isEmpty) = true
    · simp [Catalog.add_video_to_group, h1]
    · by_cases h2 : db.video_groups.any (fun g => g.id == gid) = true
      · by_cases h3 : db.group_videos.any
            (fun r => r.group_id == gid && r.video_id == vid) = true
        · simp [Catalog.add_video_to_group, h1, h2, h3]
        · simp [Catalog.add_video_to_group, h1, h2, h3, hnp1]
      · simp [Catalog.add_video_to_group, h1, h2]
  · intro rid pos h
    by_cases h1 : (vid.isEmpty || title.isEmpty) = true
    · simp [Catalog.add_video_to_group, h1] at h
    · by_cases h2 : db.video_groups.any (fun g => g.id == gid) = true
      · by_cases h3 : db.group_videos.any
            (fun r => r.group_id == gid && r.video_id == vid) = true
        · simp [Catalog.add_video_to_group, h1, h2, h3] at h
        · simp [Catalog.add_video_to_group, h1, h2, h3] at h
          omega
      · simp [Catalog.add_video_to_group, h1, h2] at h

/-- Witness for C10: adding a second video to a one-member group leaves
the group row (thumbnail included) untouched. -/
theorem spec_c10_add_keeps_thumbnail_witness :
    (Catalog.add_video_to_group
        { video_groups := [{ id := 1, group_name := "Kids", description := "",
                             thumbnail := "tA" }],
          group_videos := [{ id := 5, group_id := 1, video_id := "vA", video_title := "A",
                             video_thumbnail := "tA", position := 1 }],
          next_group_id := 2, next_row_id := 6 } 1 "vB" "B" none).1.video_groups =
      [{ id := 1, group_name := "Kids", description := "", thumbnail := "tA" }] := by
  have h := spec_c10_add_keeps_thumbnail
    { video_groups := [{ id := 1, group_name := "Kids", description := "",
                         thumbnail := "tA" }],
      group_videos := [{ id := 5, group_id := 1, video_id := "vA", video_title := "A",
                         video_thumbnail := "tA", position := 1 }],
      next_group_id := 2, next_row_id := 6 } 1 "vB" "B" none (by decide) (by decide)
  exact h.1

/-- The freshly computed position strictly exceeds every position already
in the group. -/
theorem nextPosition_gt (db : Catalog.CatalogDB) (gid : Nat) :
    ∀ r ∈ Catalog.rowsOf db gid, r.position < Catalog.nextPosition db gid := by
  intro r hr
  unfold Catalog.nextPosition
  cases h : Catalog.maxPos (Catalog.rowsOf db gid) with
  | none =>
    rw [(maxPos_none_iff _).mp h] at hr
    cases hr
  | some m =>
    simp only [h]
    have := maxPos_le _ m h r hr
    omega

/-- The freshly computed position is at least 1. -/
theorem nextPosition_pos (db : Catalog.CatalogDB) (gid : Nat) :
    1 ≤ Catalog.nextPosition db gid := by
  unfold Catalog.nextPosition
  cases h : Catalog.maxPos (Catalog.rowsOf db gid) with
  | none => simp only [h]; omega
  | some m => simp only [h]; omega

/-- Appending a row of a fresh (group, video) pair at a position strictly
above every position of its group preserves the positional invariants. -/
theorem posInv_append (db : Catalog.CatalogDB) (x : Catalog.GroupVideoRow)
    (hinv : Catalog.PosInv db)
    (hx1 : 1 ≤ x.position)
    (hx2 : ∀ r ∈ db.group_videos, ¬ (r.group_id = x.group_id ∧ r.video_id = x.video_id))
    (hx3 : ∀ r ∈ db.group_videos, r.group_id = x.group_id → r.position < x.position) :
    (∀ r ∈ db.group_videos ++ [x], 1 ≤ r.position) ∧
    (db.group_videos ++ [x]).Pairwise
      (fun a b => a.group_id ≠ b.group_id ∨ a.video_id ≠ b.video_id) ∧
    (db.group_videos ++ [x]).Pairwise
      (fun a b => a.group_id = b.group_id → a.position ≠ b.position) := by
  obtain ⟨hp, hu, hd⟩ := hinv
  refine ⟨?_, ?_, ?_⟩
  · intro r hr
    rcases List.mem_append.mp hr with h | h
    · exact hp r h
    · rw [List.mem_singleton.mp h]
      exact hx1
  · rw [List.pairwise_append]
    refine ⟨hu, List.pairwise_singleton _ _, ?_⟩
    intro a ha b hb
    rw [List.mem_singleton.mp hb]
    exact not_and_or.mp (hx2 a ha)
  · rw [List.pairwise_append]
    refine ⟨hd, List.pairwise_singleton _ _, ?_⟩
    intro a ha b hb
    rw [List.mem_singleton.mp hb]
    intro hgg
    have := hx3 a ha hgg
    omega

/-- The positional invariants are preserved by `add_video_to_group`. -/
theorem add_video_posInv (db : Catalog.CatalogDB) (gid : Nat) (vid title : String)
    (thumb : Option String) (hinv : Catalog.PosInv db) :
    Catalog.PosInv (Catalog.add_video_to_group db gid vid title thumb).1 := by
  by_cases h1 : (vid.isEmpty || title.isEmpty) = true
  · simpa [Catalog.add_video_to_group, h1] using hinv
  · by_cases h2 : db.video_groups.any (fun g => g.id == gid) = true
    · by_cases h3 : db.group_videos.any
          (fun r => r.group_id == gid && r.video_id == vid) = true
      · simpa [Catalog.add_video_to_group, h1, h2, h3] using hinv
      · have hres : (Catalog.add_video_to_group db gid vid title thumb).1.group_videos =
            db.group_videos ++
              [{ id := db.next_row_id, group_id := gid, video_id := vid,
                 video_title := title,
                 video_thumbnail := thumb.getD (thumb_template vid),
                 position := Catalog.nextPosition db gid }] := by
          simp [Catalog.add_video_to_group, h1, h2, h3]
        have hfresh : ∀ r ∈ db.group_videos,
            ¬ (r.group_id = gid ∧ r.video_id = vid) := by
          have hfalse : db.group_videos.any
              (fun r => r.group_id == gid && r.video_id == vid) = false := by
            simpa using h3
          intro r hr hand
          have := List.any_eq_false.mp hfalse r hr
          simp [hand.1, hand.2] at this
        have hgt : ∀ r ∈ db.group_videos, r.group_id = gid →
            r.position < Catalog.nextPosition db gid := by
          intro r hr hgg
          exact nextPosition_gt db gid r (List.mem_filter.mpr ⟨hr, by simp [hgg]⟩)
        have happ := posInv_append db
          { id := db.next_row_id, group_id := gid, video_id := vid,
            video_title := title,
            video_thumbnail := thumb.getD (thumb_template vid),
            position := Catalog.nextPosition db gid }
          ⟨hinv.1, hinv.2.1, hinv.2.2⟩ (nextPosition_pos db gid) hfresh hgt
        unfold Catalog.PosInv
        rw [hres]
        exact happ
    · simpa [Catalog.add_video_to_group, h1, h2] using hinv

/-- The positional invariants are preserved by `delete_video_from_group`. -/
theorem delete_video_posInv (db : Catalog.CatalogDB) (gid rid : Nat)
    (hinv : Catalog.PosInv db) :
    Catalog.PosInv (Catalog.delete_video_from_group db gid rid).1 := by
  obtain ⟨hp, hu, hd⟩ := hinv
  have hsub : ((Catalog.delete_video_from_group db gid rid).1.group_videos).Sublist
      db.group_videos := List.filter_sublist _
  exact ⟨fun r hr => hp r (hsub.subset hr), hu.sublist hsub, hd.sublist hsub⟩

/-- Under the positional invariants, a non-empty group has exactly one
first-by-position row. -/
theorem unique_min_row (db : Catalog.CatalogDB) (gid : Nat)
    (hinv : Catalog.PosInv db) (hne : Catalog.rowsOf db gid ≠ []) :
    ∃! r, r ∈ Catalog.rowsOf db gid ∧
      ∀ s ∈ Catalog.rowsOf db gid, r.position ≤ s.position := by
  obtain ⟨r, hr⟩ := minPosRow_isSome _ hne
  refine ⟨r, ⟨minPosRow_mem _ r hr, minPosRow_min _ r hr⟩, ?_⟩
  rintro r2 ⟨hr2mem, hr2min⟩
  by_contra hneq
  have hd : (Catalog.rowsOf db gid).Pairwise
      (fun a b => a.group_id = b.group_id → a.position ≠ b.position) :=
    hinv.2.2.sublist (List.filter_sublist _)
  have hsymm : Symmetric (fun a b : Catalog.GroupVideoRow =>
      a.group_id = b.group_id → a.position ≠ b.position) := by
    intro a b h heq hpos
    exact h heq.symm hpos.symm
  have hrmem := minPosRow_mem _ r hr
  have hga : r2.group_id = gid := by
    have := (List.mem_filter.mp hr2mem).2
    simpa using this
  have hgb : r.group_id = gid := by
    have := (List.mem_filter.mp hrmem).2
    simpa using this
  have hR := List.Pairwise.forall hsymm hd hr2mem hrmem hneq
  have hpos2 : r2.position = r.position :=
    le_antisymm (hr2min r hrmem) (minPosRow_min _ r hr r2 hr2mem)
  exact hR (by rw [hga, hgb]) hpos2

/-- A call that reports ok assigned exactly the freshly computed
position. -/
theorem add_video_ok_spec (db : Catalog.CatalogDB) (gid : Nat) (vid title : String)
    (thumb : Option String) (rid pos : Nat)
    (h : (Catalog.add_video_to_group db gid vid title thumb).2 =
      Catalog.AddVideoResult.ok rid pos) :
    pos = Catalog.nextPosition db gid := by
  by_cases h1 : (vid.isEmpty || title.isEmpty) = true
  · simp [Catalog.add_video_to_group, h1] at h
  · by_cases h2 : db.video_groups.any (fun g => g.id == gid) = true
    · by_cases h3 : db.group_videos.any
          (fun r => r.group_id == gid && r.video_id == vid) = true
      · simp [Catalog.add_video_to_group, h1, h2, h3] at h
      · simp [Catalog.add_video_to_group, h1, h2, h3] at h
        omega
    · simp [Catalog.add_video_to_group, h1, h2] at h

/-- C4: a newly added member receives position max+1, or 1 when the group
has no members; the positional invariants (all positions at least 1,
unique (group, video) pairs, distinct positions within a group) are
preserved by add and remove; and under them every non-empty group has
exactly one first-by-position row. -/
theorem spec_c4_position_invariant :
    (∀ (db : Catalog.CatalogDB) (gid : Nat) (vid title : String) (thumb : Option String),
        Catalog.PosInv db →
        Catalog.PosInv (Catalog.add_video_to_group db gid vid title thumb).1) ∧
    (∀ (db : Catalog.CatalogDB) (gid rid : Nat),
        Catalog.PosInv db →
        Catalog.PosInv (Catalog.delete_video_from_group db gid rid).1) ∧
    (∀ (db : Catalog.CatalogDB) (gid : Nat) (vid title : String) (thumb : Option String)
        (rid pos : Nat),
        (Catalog.add_video_to_group db gid vid title thumb).2 =
          Catalog.AddVideoResult.ok rid pos →
        ((Catalog.rowsOf db gid = [] → pos = 1) ∧
         (Catalog.rowsOf db gid ≠ [] → ∃ r ∈ Catalog.rowsOf db gid,
            pos = r.position + 1 ∧
            ∀ s ∈ Catalog.rowsOf db gid, s.position ≤ r.position))) ∧
    (∀ (db : Catalog.CatalogDB) (gid : Nat),
        Catalog.PosInv db → Catalog.rowsOf db gid ≠ [] →
        ∃! r, r ∈ Catalog.rowsOf db gid ∧
          ∀ s ∈ Catalog.rowsOf db gid, r.position ≤ s.position) := by
  refine ⟨fun db gid vid title thumb hinv => add_video_posInv db gid vid title thumb hinv,
          fun db gid rid hinv => delete_video_posInv db gid rid hinv, ?_,
          fun db gid hinv hne => unique_min_row db gid hinv hne⟩
  intro db gid vid title thumb rid pos h
  have hpos := add_video_ok_spec db gid vid title thumb rid pos h
  constructor
  · intro hnil
    rw [hpos]
    unfold Catalog.nextPosition
    rw [(maxPos_none_iff _).mpr hnil]
  · intro hne
    have hm : ∃ m, Catalog.maxPos (Catalog.rowsOf db gid) = some m := by
      cases hmm : Catalog.maxPos (Catalog.rowsOf db gid) with
      | none => exact absurd ((maxPos_none_iff _).mp hmm) hne
      | some m => exact ⟨m, rfl⟩
    obtain ⟨m, hm⟩ := hm
    obtain ⟨r, hrmem, hrm⟩ := maxPos_mem _ m hm
    have hnp : Catalog.nextPosition db gid = m + 1 := by
      unfold Catalog.nextPosition
      rw [hm]
    refine ⟨r, hrmem, by omega, ?_⟩
    intro s hs
    have := maxPos_le _ m hm s hs
    omega

/-- Witness for C4: adding a second member to a one-member group
preserves the positional invariants. -/
theorem spec_c4_position_invariant_witness :
    Catalog.PosInv (Catalog.add_video_to_group
      { video_groups := [{ id := 1, group_name := "Kids", description := "",
                           thumbnail := "tA" }],
        group_videos := [{ id := 5, group_id := 1, video_id := "vA", video_title := "A",
                           video_thumbnail := "tA", position := 1 }],
        next_group_id := 2, next_row_id := 6 } 1 "vB" "B" none).1 :=
  spec_c4_position_invariant.1
    { video_groups := [{ id := 1, group_name := "Kids", description := "",
                         thumbnail := "tA" }],
      group_videos := [{ id := 5, group_id := 1, video_id := "vA", video_title := "A",
                         video_thumbnail := "tA", position := 1 }],
      next_group_id := 2, next_row_id := 6 } 1 "vB" "B" none
    (by unfold Catalog.PosInv; refine ⟨by decide, ?_, ?_⟩ <;> decide)

/-- `find?` over the thumbnail update of a group present in the table
answers that group carrying the written thumbnail. -/
theorem getGroup_set_thumbnail (db : Catalog.CatalogDB) (gid : Nat) (t : String)
    (g1 : Catalog.GroupRow) (hg : Catalog.getGroup db gid = some g1) :
    (Catalog.set_thumbnail db.video_groups gid t).find? (fun g => g.id == gid) =
      some { g1 with thumbnail := t } := by
  unfold Catalog.getGroup at hg
  have hid : (g1.id == gid) = true :=
    List.find?_some (p := fun g : Catalog.GroupRow => g.id == gid) hg
  unfold Catalog.set_thumbnail
  rw [find?_map_id_pres db.video_groups gid _ (set_thumbnail_id_pres gid t), hg]
  simp only [Option.map_some']
  rw [if_pos (by simpa using hid)]

/-- C5: after a successful removal from a group, and in particular when
the removed row was the first-by-position thumbnail source, the group
carries the thumbnail of the new lowest-position remaining member, or the
empty string when no members remain. -/
theorem spec_c5_thumbnail_recompute :
    ∀ (db : Catalog.CatalogDB) (gid rid : Nat) (g1 : Catalog.GroupRow)
      (r0 : Catalog.GroupVideoRow),
      Catalog.getGroup db gid = some g1 →
      r0 ∈ Catalog.rowsOf db gid → r0.id = rid →
      (∀ s ∈ Catalog.rowsOf db gid, r0.position ≤ s.position) →
      (Catalog.delete_video_from_group db gid rid).2 = Catalog.DeleteResult.ok →
      ∃ g2, Catalog.getGroup (Catalog.delete_video_from_group db gid rid).1 gid =
          some g2 ∧
        ((Catalog.rowsOf (Catalog.delete_video_from_group db gid rid).1 gid = [] ∧
          g2.thumbnail = "") ∨
         (∃ r ∈ Catalog.rowsOf (Catalog.delete_video_from_group db gid rid).1 gid,
            g2.thumbnail = r.video_thumbnail ∧
            ∀ s ∈ Catalog.rowsOf (Catalog.delete_video_from_group db gid rid).1 gid,
              r.position ≤ s.position)) := by
  intro db gid rid g1 r0 hg hr0mem hr0id hr0min hok
  have hmain : Catalog.getGroup (Catalog.delete_video_from_group db gid rid).1 gid =
      some { g1 with thumbnail :=
        ((Catalog.minPosRow
            (Catalog.rowsOf (Catalog.delete_video_from_group db gid rid).1 gid)).map
          (fun r => r.video_thumbnail)).getD "" } :=
    getGroup_set_thumbnail db gid _ g1 hg
  refine ⟨_, hmain, ?_⟩
  cases hmr : Catalog.minPosRow
      (Catalog.rowsOf (Catalog.delete_video_from_group db gid rid).1 gid) with
  | none =>
    left
    exact ⟨(minPosRow_none_iff _).mp hmr, by simp [hmr]⟩
  | some r =>
    right
    exact ⟨r, minPosRow_mem _ r hmr, by simp [hmr], minPosRow_min _ r hmr⟩

/-- Witness for C5: removing the position-1 thumbnail source from a
two-member group makes the position-2 member the thumbnail source. -/
theorem spec_c5_thumbnail_recompute_witness :
    ∃ g2, Catalog.getGroup (Catalog.delete_video_from_group
        { video_groups := [{ id := 1, group_name := "Kids", description := "",
                             thumbnail := "tA" }],
          group_videos := [{ id := 5, group_id := 1, video_id := "vA", video_title := "A",
                             video_thumbnail := "tA", position := 1 },
                           { id := 6, group_id := 1, video_id := "vB", video_title := "B",
                             video_thumbnail := "tB", position := 2 }],
          next_group_id := 2, next_row_id := 7 } 1 5).1 1 = some g2 ∧
      ((Catalog.rowsOf (Catalog.delete_video_from_group
          { video_groups := [{ id := 1, group_name := "Kids", description := "",
                               thumbnail := "tA" }],
            group_videos := [{ id := 5, group_id := 1, video_id := "vA",
                               video_title := "A", video_thumbnail := "tA",
                               position := 1 },
                             { id := 6, group_id := 1, video_id := "vB",
                               video_title := "B", video_thumbnail := "tB",
                               position := 2 }],
            next_group_id := 2, next_row_id := 7 } 1 5).1 1 = [] ∧
        g2.thumbnail = "") ∨
       (∃ r ∈ Catalog.rowsOf (Catalog.delete_video_from_group
          { video_groups := [{ id := 1, group_name := "Kids", description := "",
                               thumbnail := "tA" }],
            group_videos := [{ id := 5, group_id := 1, video_id := "vA",
                               video_title := "A", video_thumbnail := "tA",
                               position := 1 },
                             { id := 6, group_id := 1, video_id := "vB",
                               video_title := "B", video_thumbnail := "tB",
                               position := 2 }],
            next_group_id := 2, next_row_id := 7 } 1 5).1 1,
          g2.thumbnail = r.video_thumbnail ∧
          ∀ s ∈ Catalog.rowsOf (Catalog.delete_video_from_group
            { video_groups := [{ id := 1, group_name := "Kids", description := "",
                                 thumbnail := "tA" }],
              group_videos := [{ id := 5, group_id := 1, video_id := "vA",
                                 video_title := "A", video_thumbnail := "tA",
                                 position := 1 },
                               { id := 6, group_id := 1, video_id := "vB",
                                 video_title := "B", video_thumbnail := "tB",
                                 position := 2 }],
              next_group_id := 2, next_row_id := 7 } 1 5).1 1,
            r.position ≤ s.position)) :=
  spec_c5_thumbnail_recompute
    { video_groups := [{ id := 1, group_name := "Kids", description := "",
                         thumbnail := "tA" }],
      group_videos := [{ id := 5, group_id := 1, video_id := "vA", video_title := "A",
                         video_thumbnail := "tA", position := 1 },
                       { id := 6, group_id := 1, video_id := "vB", video_title := "B",
                         video_thumbnail := "tB", position := 2 }],
      next_group_id := 2, next_row_id := 7 } 1 5
    { id := 1, group_name := "Kids", description := "", thumbnail := "tA" }
    { id := 5, group_id := 1, video_id := "vA", video_title := "A",
      video_thumbnail := "tA", position := 1 }
    (by decide) (by decide) (by decide) (by decide) (by decide)

/-- Appending a row whose position exceeds all of its group does not move
the first row by position, when the group was non-empty. -/
theorem minPosRow_append_gt (x : Catalog.GroupVideoRow) :
    ∀ l : List Catalog.GroupVideoRow, l ≠ [] →
      (∀ r ∈ l, r.position < x.position) →
      Catalog.minPosRow (l ++ [x]) = Catalog.minPosRow l := by
  intro l
  induction l with
  | nil => intro h; exact absurd rfl h
  | cons a rest ih =>
    intro _ hgt
    by_cases hrest : rest = []
    · subst hrest
      have ha := hgt a (List.mem_cons_self _ _)
      simp [Catalog.minPosRow, Nat.le_of_lt ha]
    · have hih := ih hrest (fun r hr => hgt r (List.mem_cons_of_mem _ hr))
      simp only [List.cons_append]
      unfold Catalog.minPosRow
      rw [hih]

/-- The freshly computed position is 1 exactly when the group was empty,
provided every stored position is at least 1. -/
theorem nextPosition_eq_one_iff (db : Catalog.CatalogDB) (gid : Nat)
    (hpos : ∀ r ∈ db.group_videos, 1 ≤ r.position) :
    Catalog.nextPosition db gid = 1 ↔ Catalog.rowsOf db gid = [] := by
  unfold Catalog.nextPosition
  cases h : Catalog.maxPos (Catalog.rowsOf db gid) with
  | none =>
    simp only [h]
    simp [(maxPos_none_iff _).mp h]
  | some m =>
    simp only [h]
    constructor
    · intro h1
      obtain ⟨r, hrm, hre⟩ := maxPos_mem _ m h
      have hr2 : r ∈ db.group_videos := (List.mem_filter.mp hrm).1
      have := hpos r hr2
      omega
    · intro h1
      rw [h1] at h
      simp [Catalog.maxPos] at h

/-- Appending one membership row (writing the group thumbnail exactly
when the group was empty, as the add operation does) preserves
consistency, provided the new position exceeds every position of its
group. -/
theorem consistent_append (db : Catalog.CatalogDB) (x : Catalog.GroupVideoRow)
    (hcons : Catalog.Consistent db) (db2 : Catalog.CatalogDB)
    (hgv : db2.group_videos = db.group_videos ++ [x])
    (hvg : db2.video_groups =
      if Catalog.rowsOf db x.group_id = [] then
        Catalog.set_thumbnail db.video_groups x.group_id x.video_thumbnail
      else db.video_groups)
    (hgt : ∀ r ∈ Catalog.rowsOf db x.group_id, r.position < x.position) :
    Catalog.Consistent db2 := by
  intro g hg
  have hrows : ∀ y : Nat, Catalog.rowsOf db2 y =
      Catalog.rowsOf db y ++ (if x.group_id = y then [x] else []) := by
    intro y
    unfold Catalog.rowsOf
    rw [hgv, List.filter_append]
    congr 1
    by_cases hxy : x.group_id = y
    · simp [hxy]
    · simp [hxy]
  have hspec_other : ∀ y : Nat, x.group_id ≠ y →
      Catalog.group_thumb_spec db2 y = Catalog.group_thumb_spec db y := by
    intro y hxy
    unfold Catalog.group_thumb_spec
    rw [hrows y, if_neg hxy, List.append_nil]
  by_cases hempty : Catalog.rowsOf db x.group_id = []
  · rw [hvg, if_pos hempty] at hg
    obtain ⟨g0, hg0, hup⟩ := List.mem_map.mp hg
    by_cases hid : g0.id = x.group_id
    · have hgthumb : g.thumbnail = x.video_thumbnail := by
        rw [← hup, if_pos hid]
      have hgid : g.id = g0.id := by
        rw [← hup, if_pos hid]
      rw [hgthumb, hgid, hid]
      unfold Catalog.group_thumb_spec
      rw [hrows x.group_id, if_pos rfl, hempty]
      simp [Catalog.minPosRow]
    · have hg0g : g0 = g := by
        rw [← hup, if_neg hid]
      subst hg0g
      rw [hcons g0 hg0]
      exact (hspec_other g0.id (fun he => hid he.symm)).symm
  · rw [hvg, if_neg hempty] at hg
    rw [hcons g hg]
    by_cases hid : x.group_id = g.id
    · rw [← hid]
      unfold Catalog.group_thumb_spec
      rw [hrows x.group_id, if_pos rfl,
        minPosRow_append_gt x (Catalog.rowsOf db x.group_id) hempty hgt]
    · rw [hspec_other g.id hid]

/-- Consistency (groups carry exactly the recomputed thumbnail) is
preserved by `add_video_to_group`, under the positions-start-at-1
invariant. -/
theorem consistent_add (db : Catalog.CatalogDB) (gid : Nat) (vid title : String)
    (thumb : Option String) (hcons : Catalog.Consistent db)
    (hpos : ∀ r ∈ db.group_videos, 1 ≤ r.position) :
    Catalog.Consistent (Catalog.add_video_to_group db gid vid title thumb).1 := by
  by_cases h1 : (vid.isEmpty || title.isEmpty) = true
  · simpa [Catalog.add_video_to_group, h1] using hcons
  · by_cases h2 : db.video_groups.any (fun g => g.id == gid) = true
    · by_cases h3 : db.group_videos.any
          (fun r => r.group_id == gid && r.video_id == vid) = true
      · simpa [Catalog.add_video_to_group, h1, h2, h3] using hcons
      · refine consistent_append db
          { id := db.next_row_id, group_id := gid, video_id := vid,
            video_title := title,
            video_thumbnail := thumb.getD (thumb_template vid),
            position := Catalog.nextPosition db gid }
          hcons (Catalog.add_video_to_group db gid vid title thumb).1 ?_ ?_ ?_
        · simp [Catalog.add_video_to_group, h1, h2, h3]
        · have hshape : (Catalog.add_video_to_group db gid vid title thumb).1.video_groups =
              if Catalog.nextPosition db gid = 1 then
                Catalog.set_thumbnail db.video_groups gid (thumb.getD (thumb_template vid))
              else db.video_groups := by
            simp [Catalog.add_video_to_group, h1, h2, h3]
          rw [hshape]
          exact if_congr (nextPosition_eq_one_iff db gid hpos) rfl rfl
        · exact fun r hr => nextPosition_gt db gid r hr
    · simpa [Catalog.add_video_to_group, h1, h2] using hcons

/-- Consistency is preserved by `delete_video_from_group`: the group of
the removal is recomputed by the operation itself, and the row sets of
all other groups are untouched. -/
theorem consistent_delete_video (db : Catalog.CatalogDB) (gid rid : Nat)
    (hcons : Catalog.Consistent db) :
    Catalog.Consistent (Catalog.delete_video_from_group db gid rid).1 := by
  intro g hg
  have hgv : (Catalog.delete_video_from_group db gid rid).1.group_videos =
      db.group_videos.filter (fun r => ¬ (r.group_id = gid ∧ r.id = rid)) := rfl
  have hrows_other : ∀ y : Nat, gid ≠ y →
      Catalog.rowsOf (Catalog.delete_video_from_group db gid rid).1 y =
        Catalog.rowsOf db y := by
    intro y hy
    unfold Catalog.rowsOf
    rw [hgv, List.filter_filter]
    apply List.filter_congr
    intro r hr
    by_cases hgr : (r.group_id == y) = true
    · have hre : r.group_id = y := by simpa using hgr
      have hnot : ¬ (r.group_id = gid ∧ r.id = rid) := by
        intro hand
        exact hy (by rw [← hand.1, hre])
      simp [hgr, hnot]
    · simp only [Bool.not_eq_true] at hgr
      simp [hgr]
  have hup : ∃ g0 ∈ db.video_groups,
      (if g0.id = gid then
        { g0 with thumbnail :=
          Catalog.group_thumb_spec (Catalog.delete_video_from_group db gid rid).1 gid }
       else g0) = g := List.mem_map.mp hg
  obtain ⟨g0, hg0, hupg⟩ := hup
  by_cases hid : g0.id = gid
  · have hgthumb : g.thumbnail =
        Catalog.group_thumb_spec (Catalog.delete_video_from_group db gid rid).1 gid := by
      rw [← hupg, if_pos hid]
    have hgid : g.id = g0.id := by
      rw [← hupg, if_pos hid]
    rw [hgthumb, hgid, hid]
  · have hg0g : g0 = g := by
      rw [← hupg, if_neg hid]
    subst hg0g
    rw [hcons g0 hg0]
    unfold Catalog.group_thumb_spec
    rw [hrows_other g0.id (fun he => hid he.symm)]

/-- Consistency is preserved by `delete_group`: surviving groups keep
their thumbnails and their row sets. -/
theorem consistent_delete_group (db : Catalog.CatalogDB) (gid : Nat)
    (hcons : Catalog.Consistent db) :
    Catalog.Consistent (Catalog.delete_group db gid).1 := by
  intro g hg
  have hg2 : g ∈ db.video_groups := List.mem_of_mem_filter hg
  exact hcons g hg2

/-- Consistency is preserved by `create_group`, the fresh group id never
being referenced by an existing membership row. -/
theorem consistent_create (db : Catalog.CatalogDB) (name desc : String)
    (hcons : Catalog.Consistent db)
    (hfresh : ∀ r ∈ db.group_videos, r.group_id ≠ db.next_group_id) :
    Catalog.Consistent (Catalog.create_group db name desc).1 := by
  by_cases h : name.isEmpty = true
  · simpa [Catalog.create_group, h] using hcons
  · intro g hg
    have hg2 : g ∈ db.video_groups ++
        [{ id := db.next_group_id, group_name := name, description := desc,
           thumbnail := "" }] := by
      simpa [Catalog.create_group, h] using hg
    have hsame : (Catalog.create_group db name desc).1.group_videos =
        db.group_videos := by
      simp [Catalog.create_group, h]
    rcases List.mem_append.mp hg2 with hmem | hmem
    · have hc := hcons g hmem
      unfold Catalog.group_thumb_spec Catalog.rowsOf at hc ⊢
      rw [hsame]
      exact hc
    · rw [List.mem_singleton.mp hmem]
      unfold Catalog.group_thumb_spec
      have hnil : Catalog.rowsOf (Catalog.create_group db name desc).1
          db.next_group_id = [] := by
        unfold Catalog.rowsOf
        rw [hsame]
        rw [List.filter_eq_nil_iff]
        intro r hr
        simpa using hfresh r hr
      rw [hnil]
      rfl
